import Mathlib

/-!
Verification of the `csv_processor` pipeline (condition parsing, filtering,
aggregation, ordering over loosely typed tabular rows).

The development shallowly embeds the two Python variants found in the
repository:

* `Core` — the typed-at-load variant (`src/csv_processor/core.py`): cells are
  coerced to numbers at load time when possible, so a cell is either a number
  or a text string.
* `MainPy` — the looser variant (`src/csv_processor/main.py`): cells stay raw
  strings and are coerced per comparison.

Modelling decisions, stated once here:

* Strings are `List Char` (Python compares strings by code point, which is
  exactly lexicographic comparison of the character lists).
* Python floats are modelled as exact rationals: `float(s)` becomes
  `parseFloat : List Char → Option ℚ`, accepting an optionally signed decimal
  literal with optional fraction and exponent, surrounded by whitespace.
  IEEE-754 rounding, `inf`/`nan` literals and underscore separators are not
  modelled; no theorem below depends on them.
* `str(x)` applied to a number (only reachable on the string-comparison
  fallbacks) is modelled by exact decimal rendering (`floatRepr`); again no
  theorem depends on its exact digits, only on it being a function of the value.
* The Python `sorted` builtin is a stable comparison sort; it is modelled by a stable
  insertion sort (`sortByLe`) driven by the same `is-not-greater` test.
  `sorted` raises `TypeError` exactly when it compares a number with a string;
  on a key list containing both kinds some adjacent mixed pair is always
  compared (and on lists of length below two both branches agree), so the
  `try/except TypeError` of `apply_order_by` is modelled by a mixed-kinds test
  on the key list.
* Exceptions become an explicit `Err` sum via `Except`.
-/

/-- Python strings, as their sequence of code points. -/
abbrev Str := List Char

/-- One `Err` constructor per distinct `raise` site of the two sources. -/
inductive Err where
  | malformedCondition : Err
  | malformedAggSpec : Err
  | unknownOperation : Str → Err
  | nonNumericColumn : Str → Err
  | malformedOrderSpec : Err
  | unknownOrder : Str → Err
  | unsupportedOperator : Str → Err
  | keyError : Str → Err
deriving DecidableEq

/-- `str.strip()`: drop whitespace from both ends. -/
def trim (x : Str) : Str :=
  ((x.dropWhile Char.isWhitespace).reverse.dropWhile Char.isWhitespace).reverse

/-- Does `s` start with the pattern `pat`? -/
def startsWith : Str → Str → Bool
  | [], _ => true
  | _ :: _, [] => false
  | c :: cs, d :: ds => c = d && startsWith cs ds

/-- Split `s` at the first occurrence of `pat` (Python
`s.split(pat, maxsplit=1)` restricted to the case where `pat` occurs;
`none` when `pat` does not occur). -/
def splitFirst (pat : Str) : Str → Option (Str × Str)
  | [] => if startsWith pat [] then some ([], ([] : Str).drop pat.length) else none
  | c :: cs =>
    if startsWith pat (c :: cs) then some ([], (c :: cs).drop pat.length)
    else (splitFirst pat cs).map (fun pr => (c :: pr.1, pr.2))

/-- Value of a decimal digit string, most significant first. -/
def digitsToNat (ds : Str) : ℕ :=
  ds.foldl (fun n c => n * 10 + (c.toNat - 48)) 0

/-- Mantissa value of integer digits `ip` and fraction digits `fp`. -/
def mantissa (ip fp : Str) : ℚ :=
  (digitsToNat ip : ℚ) + (digitsToNat fp : ℚ) / (10 : ℚ) ^ fp.length

/-- Exponent part after `e`/`E`: an optionally signed nonempty digit string. -/
def parseExp (t : Str) : Option ℤ :=
  let core : Str → Option ℤ := fun ds =>
    if ds = [] ∨ ¬ ds.all Char.isDigit then none else some (digitsToNat ds)
  match t with
  | '+' :: r => core r
  | '-' :: r => (core r).map Neg.neg
  | r => core r

/-- Unsigned part of a Python float literal: digits, optional fraction,
optional exponent (grammar of `float(str)` without `inf`/`nan`/underscores). -/
def parseUnsigned (t : Str) : Option ℚ :=
  let (ip, rest) := t.span Char.isDigit
  match rest with
  | [] => if ip = [] then none else some (digitsToNat ip)
  | '.' :: rest2 =>
    let (fp, rest3) := rest2.span Char.isDigit
    if ip = [] ∧ fp = [] then none
    else
      match rest3 with
      | [] => some (mantissa ip fp)
      | e :: rest4 =>
        if e = 'e' ∨ e = 'E' then
          (parseExp rest4).map (fun k => mantissa ip fp * (10 : ℚ) ^ k)
        else none
  | e :: rest2 =>
    if (e = 'e' ∨ e = 'E') ∧ ip ≠ [] then
      (parseExp rest2).map (fun k => (digitsToNat ip : ℚ) * (10 : ℚ) ^ k)
    else none

/-- Python `float(s)` on a string: strip whitespace, optional sign, unsigned
literal; `none` models the `ValueError`. -/
def parseFloat (t0 : Str) : Option ℚ :=
  match trim t0 with
  | '+' :: r => parseUnsigned r
  | '-' :: r => (parseUnsigned r).map Neg.neg
  | t => parseUnsigned t

/-- A cell of the typed-at-load variant: `read_csv` of `core.py` stores
`float(value)` when the text parses as a number and the stripped text
otherwise. -/
inductive Value where
  | num : ℚ → Value
  | str : Str → Value
deriving DecidableEq

/-- Python `<` on strings: lexicographic by code point. -/
def lexLt : Str → Str → Bool
  | [], [] => false
  | [], _ :: _ => true
  | _ :: _, [] => false
  | a :: as, b :: bs => if a < b then true else if b < a then false else lexLt as bs

/-- Smallest decimal shift putting `q` over a power-of-ten denominator
(bounded search keeps the rendering total; values needing a larger shift do
not occur in any statement below). -/
def decimalShift (q : ℚ) : ℕ :=
  (((List.range 41).find? (fun k => (q * (10 : ℚ) ^ k).den = 1)).getD 0)

/-- Zero-padded decimal digits of `m`, width `k`. -/
def natDigitsPadded (m k : ℕ) : Str :=
  let ds := Nat.toDigits 10 m
  List.replicate (k - ds.length) '0' ++ ds

/-- Decimal rendering of a nonnegative rational, Python style: integral values
get a trailing `.0`, fractional values keep their shortest exact fraction. -/
def floatReprPos (q : ℚ) : Str :=
  let k := decimalShift q
  let n := (q * (10 : ℚ) ^ k).num.toNat
  if k = 0 then Nat.toDigits 10 n ++ ['.', '0']
  else Nat.toDigits 10 (n / 10 ^ k) ++ '.' :: natDigitsPadded (n % 10 ^ k) k

/-- Python `str(x)` on a number (exact-decimal model, see the header note). -/
def floatRepr (q : ℚ) : Str :=
  if q < 0 then '-' :: floatReprPos (-q) else floatReprPos q

/-- Python `str(x)` on a cell: identity on strings, decimal rendering on
numbers. -/
def pyStr : Value → Str
  | .str t => t
  | .num q => floatRepr q

/-- Numeric view of a cell: a number is itself, a string goes through
`float(...)` (`none` models the `ValueError`). -/
def toNum : Value → Option ℚ
  | .num q => some q
  | .str t => parseFloat t

/-! ## Condition parser (identical in `core.py` and `main.py`) -/

/-- The operator strings, in the fixed priority order of the source. -/
def opGe : Str := ['>', '=']
def opLe : Str := ['<', '=']
def opEq : Str := ['=']
def opGt : Str := ['>']
def opLt : Str := ['<']

/-- The operator list of `parse_condition`: `>=`, `<=`, `=`, `>`, `<`. -/
def operators : List Str := [opGe, opLe, opEq, opGt, opLt]

/-- The `for op in operators` loop body: first operator of `ops` occurring in
`cond` splits it, both sides stripped. -/
def findSplit (cond : Str) : List Str → Option (Str × Str × Str)
  | [] => none
  | op :: rest =>
    match splitFirst op cond with
    | some pr => some (trim pr.1, op, trim pr.2)
    | none => findSplit cond rest

/-- `parse_condition`: split a `column<op>value` input into the stripped triple, or
fail when no operator substring occurs. -/
def parse_condition (cond : Str) : Except Err (Str × Str × Str) :=
  match findSplit cond operators with
  | some r => .ok r
  | none => .error .malformedCondition

/-! ## Core variant (`core.py`): typed rows -/

namespace Core

/-- A row of the typed variant: Python dict from column name to cell, as an
association list with unique keys (lookup takes the first binding). -/
abbrev Row := List (Str × Value)

/-- `row.get(column)` / `column in row`. -/
def lookupRow (c : Str) : Row → Option Value
  | [] => none
  | (k, v) :: rest => if k = c then some v else lookupRow c rest

/-- The numeric comparison chain of `apply_filter` (the final `else` branch is
unreachable for parsed operators but is kept from the source). -/
def numCompare (op : Str) (a b : ℚ) : Bool :=
  if op = opGt then decide (a > b)
  else if op = opLt then decide (a < b)
  else if op = opEq then decide (a = b)
  else if op = opGe then decide (a ≥ b)
  else if op = opLe then decide (a ≤ b)
  else false

/-- The string-fallback comparison chain of `apply_filter` in `core.py`:
only `=`, `>`, `<` compare; every other operator yields `False`, silently
excluding the row. -/
def strCompare (op : Str) (a b : Str) : Bool :=
  if op = opEq then a = b
  else if op = opGt then lexLt b a
  else if op = opLt then lexLt a b
  else false

/-- One comparison of `apply_filter` in `core.py`: try both sides as numbers,
on any coercion failure fall back to string comparison of `str(cell)` with
the raw operand. -/
def condMet (op : Str) (cell : Value) (val : Str) : Bool :=
  match toNum cell, parseFloat val with
  | some rn, some vn => numCompare op rn vn
  | some _, none => strCompare op (pyStr cell) val
  | none, _ => strCompare op (pyStr cell) val

/-- Row predicate of the filter loop in `core.py`: a row lacking the column is
skipped (`continue`), otherwise the condition decides. -/
def rowKeep (col op val : Str) (r : Row) : Bool :=
  match lookupRow col r with
  | none => false
  | some cell => condMet op cell val

/-- The accumulating filter loop (`filtered_data.append(row)`). -/
def filterGo (p : Row → Bool) (acc : List Row) : List Row → List Row
  | [] => acc
  | r :: rs => filterGo p (if p r then acc ++ [r] else acc) rs

/-- The `apply_filter` of `core.py`. -/
def apply_filter (data : List Row) (cond : Str) : Except Err (List Row) :=
  match parse_condition cond with
  | .error e => .error e
  | .ok (col, op, val) => .ok (filterGo (rowKeep col op val) [] data)

/-! ### Aggregation -/

/-- The single-record result dict carrying the operation, the column and the value. -/
structure AggResult where
  operation : Str
  column : Str
  value : Option ℚ
deriving DecidableEq

/-- Aggregation operation names. -/
def opAvg : Str := ['a', 'v', 'g']
def opMin : Str := ['m', 'i', 'n']
def opMax : Str := ['m', 'a', 'x']
def opMedian : Str := ['m', 'e', 'd', 'i', 'a', 'n']
def opSum : Str := ['s', 'u', 'm']
def opCount : Str := ['c', 'o', 'u', 'n', 't']

/-- The keys of the `AGGREGATIONS` table of `core.py`. -/
def aggNames : List Str := [opAvg, opMin, opMax, opMedian, opSum, opCount]

/-- Python `min(x)` / `max(x)` on a nonempty list (the empty case is
unreachable: empty collections return early). -/
def pyMin : List ℚ → ℚ
  | [] => 0
  | h :: t => t.foldl min h

def pyMax : List ℚ → ℚ
  | [] => 0
  | h :: t => t.foldl max h

/-- The `AGGREGATIONS` dispatch of `core.py`, applied to the collected
numbers (only reached with a validated operation name and, except for the
`if x else 0` guard kept from the median lambda, a nonempty list). -/
def aggApply (op : Str) (x : List ℚ) : ℚ :=
  if op = opAvg then x.sum / x.length
  else if op = opMin then pyMin x
  else if op = opMax then pyMax x
  else if op = opMedian then
    if x = [] then 0
    else ((List.insertionSort (fun a b => a ≤ b) x)[x.length / 2]?).getD 0
  else if op = opSum then x.sum
  else if op = opCount then x.length
  else 0

/-- The list comprehension of `apply_aggregation`: values of `column` over the
rows that have it, each coerced to a number; the first coercion failure
aborts with `NonNumericColumn`. -/
def collectValues (col : Str) : List Row → Except Err (List ℚ)
  | [] => .ok []
  | r :: rs =>
    match lookupRow col r with
    | none => collectValues col rs
    | some cell =>
      match toNum cell with
      | none => .error (.nonNumericColumn col)
      | some q =>
        match collectValues col rs with
        | .error e => .error e
        | .ok qs => .ok (q :: qs)

/-- `condition.split('=', maxsplit=1)` guarded by `'=' in condition`, both
parts stripped (shared shape of the aggregation and order-by specs). -/
def splitEq (cond : Str) : Option (Str × Str) :=
  (splitFirst opEq cond).map (fun pr => (trim pr.1, trim pr.2))

/-- The `apply_aggregation` of `core.py`. -/
def apply_aggregation (data : List Row) (cond : Str) : Except Err (List AggResult) :=
  match splitEq cond with
  | none => .error .malformedAggSpec
  | some (col, op) =>
    if op ∈ aggNames then
      match collectValues col data with
      | .error e => .error e
      | .ok values =>
        if values = [] then .ok [⟨op, col, none⟩]
        else .ok [⟨op, col, some (aggApply op values)⟩]
    else .error (.unknownOperation op)

/-! ### Order engine -/

def ordAsc : Str := ['a', 's', 'c']
def ordDesc : Str := ['d', 'e', 's', 'c']

/-- The keys of the `SORT_ORDERS` table. -/
def sortOrderNames : List Str := [ordAsc, ordDesc]

/-- The `SORT_ORDERS` key transforms: `asc` is the identity; `desc` negates a
number and reverses the character sequence of a string. -/
def sortTransform (order : Str) (v : Value) : Value :=
  if order = ordDesc then
    match v with
    | .num q => .num (-q)
    | .str t => .str t.reverse
  else v

/-- Primary sort key: `SORT_ORDERS[order](x.get(column, 0))`. -/
def keyPrimary (order col : Str) (r : Row) : Value :=
  sortTransform order ((lookupRow col r).getD (.num 0))

/-- Fallback sort key: the order transform applied to the string rendering of the cell, with an absent column defaulting to the empty string. -/
def keyFallback (order col : Str) (r : Row) : Value :=
  sortTransform order (.str (match lookupRow col r with
    | none => []
    | some v => pyStr v))

/-- Python `<` between two sort keys. Comparing a number with a string raises
`TypeError` in Python; that case is modelled as `false` and is unreachable
under the mixed-kinds guard of `apply_order_by`. -/
def valueLt : Value → Value → Bool
  | .num a, .num b => decide (a < b)
  | .str x, .str y => lexLt x y
  | _, _ => false

/-- The not-greater test driving the stable sort: place `a` before `b` unless
`b` strictly precedes `a`. -/
def valueLe (a b : Value) : Bool := ! valueLt b a

/-- Stable insertion: `a` goes in front of the first element it need not
follow, so an element inserted earlier keeps its place among equals. -/
def insertLe (le : α → α → Bool) (a : α) : List α → List α
  | [] => [a]
  | b :: l => if le a b then a :: b :: l else b :: insertLe le a l

/-- Stable comparison sort standing in for the Python `sorted` builtin. -/
def sortByLe (le : α → α → Bool) (l : List α) : List α :=
  l.foldr (insertLe le) []

def isNumV : Value → Bool
  | .num _ => true
  | .str _ => false

/-- Does the key list contain both a number and a string?  Exactly then
the Python `sorted` builtin raises `TypeError` (see the header note). -/
def mixedKeys (keys : List Value) : Bool :=
  keys.any isNumV && keys.any (fun v => ! isNumV v)

/-- The `apply_order_by` of `core.py`: split and validate the spec, sort by the
transformed column value (absent column defaults to the number `0`); on the
`TypeError` of a mixed key list, re-sort by the transformed string rendering
(absent column defaults to the empty string). -/
def apply_order_by (data : List Row) (cond : Str) : Except Err (List Row) :=
  match splitEq cond with
  | none => .error .malformedOrderSpec
  | some (col, order) =>
    if order ∈ sortOrderNames then
      if mixedKeys (data.map (keyPrimary order col)) then
        .ok (sortByLe (fun a b => valueLe (keyFallback order col a) (keyFallback order col b)) data)
      else
        .ok (sortByLe (fun a b => valueLe (keyPrimary order col a) (keyPrimary order col b)) data)
    else .error (.unknownOrder order)

end Core

/-! ## Main variant (`main.py`): raw string rows -/

namespace MainPy

/-- A row of the loose variant: cells are the raw CSV strings. -/
abbrev RowS := List (Str × Str)

/-- `row[column]`: `none` models the `KeyError`. -/
def lookupRowS (c : Str) : RowS → Option Str
  | [] => none
  | (k, v) :: rest => if k = c then some v else lookupRowS c rest

/-- One comparison of `apply_filter` in `main.py`: numeric when both sides
parse as floats, otherwise string comparison where only `=`, `>`, `<` are
supported and any other operator raises. -/
def condMet (op : Str) (rowv val : Str) : Except Err Bool :=
  match parseFloat rowv, parseFloat val with
  | some rn, some vn => .ok (Core.numCompare op rn vn)
  | _, _ =>
    if op = opEq then .ok (rowv = val)
    else if op = opGt then .ok (lexLt val rowv)
    else if op = opLt then .ok (lexLt rowv val)
    else .error (.unsupportedOperator op)

/-- The filter loop of `main.py`: `row[column]` may raise `KeyError`, the
comparison may raise `UnsupportedOperator`; either aborts the whole filter. -/
def filterGo (col op val : Str) (acc : List RowS) : List RowS → Except Err (List RowS)
  | [] => .ok acc
  | r :: rs =>
    match lookupRowS col r with
    | none => .error (.keyError col)
    | some rv =>
      match condMet op rv val with
      | .error e => .error e
      | .ok b => filterGo col op val (if b then acc ++ [r] else acc) rs

/-- The `apply_filter` of `main.py`. -/
def apply_filter (data : List RowS) (cond : Str) : Except Err (List RowS) :=
  match parse_condition cond with
  | .error e => .error e
  | .ok (col, op, val) => filterGo col op val [] data

end MainPy

/-! ## Auxiliary definitions used only in statements -/

instance exceptDecEq {ε α : Type} [DecidableEq ε] [DecidableEq α] :
    DecidableEq (Except ε α) := fun a b =>
  match a, b with
  | .ok x, .ok y => if h : x = y then isTrue (by rw [h]) else isFalse (by simp [h])
  | .error x, .error y => if h : x = y then isTrue (by rw [h]) else isFalse (by simp [h])
  | .ok _, .error _ => isFalse (by simp)
  | .error _, .ok _ => isFalse (by simp)

/-- The key function `apply_order_by` actually sorts by: the fallback string
key when the primary key list mixes numbers and strings, the primary key
otherwise. -/
def Core.activeKey (order col : Str) (data : List Core.Row) (r : Core.Row) : Value :=
  if Core.mixedKeys (data.map (Core.keyPrimary order col)) then Core.keyFallback order col r
  else Core.keyPrimary order col r

/-- Concrete rows used by counterexamples and witnesses. -/
def rowAlice : Core.Row := [("name".toList, Value.str "Alice".toList)]
def rowBob : Core.Row := [("name".toList, Value.str "Bob".toList)]
def rowEve : Core.Row := [("name".toList, Value.str "Eve".toList)]

def salaryRows : List Core.Row :=
  [[("salary".toList, Value.num 5000)], [("salary".toList, Value.num 4000)],
   [("salary".toList, Value.num 6000)], [("salary".toList, Value.num 5500)]]

def ageRows : List Core.Row :=
  [[("age".toList, Value.num 30)], [("age".toList, Value.num 25)],
   [("age".toList, Value.num 35)]]

def rowAbc : Core.Row := [("a".toList, Value.str "abc".toList)]
def rowAbcS : MainPy.RowS := [("a".toList, "abc".toList)]

def dupKeyRows : List Core.Row :=
  [[("k".toList, Value.num 1), ("id".toList, Value.num 1)],
   [("k".toList, Value.num 1), ("id".toList, Value.num 2)],
   [("k".toList, Value.num 0), ("id".toList, Value.num 3)]]

/-! ## Lemmas about the string utilities -/

theorem startsWith_iff (pat : Str) : ∀ s : Str, startsWith pat s = true ↔ ∃ t, s = pat ++ t := by
  induction pat with
  | nil =>
    intro t
    simp [startsWith]
  | cons c cs ih =>
    intro t
    cases t with
    | nil =>
      simp [startsWith]
    | cons d ds =>
      simp only [startsWith, Bool.and_eq_true, decide_eq_true_eq, ih ds, List.cons_append,
        List.cons.injEq]
      constructor
      · rintro ⟨rfl, t, rfl⟩
        exact ⟨t, rfl, rfl⟩
      · rintro ⟨t, rfl, rfl⟩
        exact ⟨rfl, t, rfl⟩

theorem startsWith_drop (pat s : Str) (h : startsWith pat s = true) :
    s = pat ++ s.drop pat.length := by
  obtain ⟨t, rfl⟩ := (startsWith_iff pat s).1 h
  simp

theorem splitFirst_eq_some (pat : Str) : ∀ (s pre post : Str),
    splitFirst pat s = some (pre, post) → s = pre ++ pat ++ post := by
  intro s
  induction s with
  | nil =>
    intro pre post h
    simp only [splitFirst] at h
    split at h
    · rename_i hsw
      obtain ⟨t, ht⟩ := (startsWith_iff pat []).1 hsw
      cases List.append_eq_nil.1 ht.symm with
      | intro h1 h2 =>
        simp only [h1, List.drop_nil, Option.some.injEq, Prod.mk.injEq] at h ⊢
        obtain ⟨rfl, rfl⟩ := h
        simp
    · exact absurd h (by simp)
  | cons c cs ih =>
    intro pre post h
    simp only [splitFirst] at h
    split at h
    · rename_i hsw
      simp only [Option.some.injEq, Prod.mk.injEq] at h
      obtain ⟨rfl, rfl⟩ := h
      simpa using startsWith_drop pat (c :: cs) hsw
    · rename_i hsw
      cases hsf : splitFirst pat cs with
      | none => simp [hsf] at h
      | some pr =>
        obtain ⟨pre1, post1⟩ := pr
        simp only [hsf, Option.map_some, Option.some.injEq, Prod.mk.injEq] at h
        obtain ⟨rfl, rfl⟩ := h
        simpa using ih pre1 post1 hsf

theorem splitFirst_of_startsWith (pat s : Str) (h : startsWith pat s = true) :
    splitFirst pat s = some ([], s.drop pat.length) := by
  cases s with
  | nil => simp [splitFirst, h]
  | cons c cs => simp [splitFirst, h]

theorem splitFirst_isSome_iff (pat s : Str) :
    (splitFirst pat s).isSome = true ↔ ∃ pre post, s = pre ++ pat ++ post := by
  constructor
  · intro h
    obtain ⟨⟨pre, post⟩, hp⟩ := Option.isSome_iff_exists.1 h
    exact ⟨pre, post, splitFirst_eq_some pat s pre post hp⟩
  · rintro ⟨pre, post, rfl⟩
    induction pre with
    | nil =>
      have hsw : startsWith pat (pat ++ post ++ []) = true :=
        (startsWith_iff _ _).2 ⟨post ++ [], by simp⟩
      rw [splitFirst_of_startsWith pat _ (by simpa using hsw)]
      simp
    | cons c pre ih =>
      simp only [List.cons_append, splitFirst]
      split
      · simp
      · simpa using ih

theorem splitFirst_minimal (pat : Str) : ∀ (s pre post : Str),
    splitFirst pat s = some (pre, post) →
    ∀ pre2 post2, s = pre2 ++ pat ++ post2 → pre.length ≤ pre2.length := by
  intro s
  induction s with
  | nil =>
    intro pre post h pre2 post2 hs
    simp only [splitFirst] at h
    split at h
    · simp only [Option.some.injEq, Prod.mk.injEq] at h
      obtain ⟨rfl, _⟩ := h
      simp
    · exact absurd h (by simp)
  | cons c cs ih =>
    intro pre post h pre2 post2 hs
    simp only [splitFirst] at h
    split at h
    · simp only [Option.some.injEq, Prod.mk.injEq] at h
      obtain ⟨rfl, _⟩ := h
      simp
    · rename_i hsw
      cases hsf : splitFirst pat cs with
      | none => simp [hsf] at h
      | some pr =>
        obtain ⟨pre1, post1⟩ := pr
        simp only [hsf, Option.map_some, Option.some.injEq, Prod.mk.injEq] at h
        obtain ⟨rfl, rfl⟩ := h
        cases pre2 with
        | nil =>
          exfalso
          apply Bool.eq_false_iff.1 (Bool.not_eq_true _ ▸ ?_) rfl
          have : startsWith pat (c :: cs) = true := by
            rw [hs]
            exact (startsWith_iff _ _).2 ⟨post2, by simp⟩
          simp [hsw] at this
        | cons c2 pre2 =>
          simp only [List.cons_append, List.cons.injEq] at hs
          obtain ⟨rfl, hs2⟩ := hs
          simpa using ih pre1 post1 hsf pre2 post2 hs2

/-! ## Lemmas about the filter loop and the stable sort -/

theorem filterGo_eq_filter (p : Core.Row → Bool) :
    ∀ (l : List Core.Row) (acc : List Core.Row),
    Core.filterGo p acc l = acc ++ l.filter p := by
  intro l
  induction l with
  | nil => intro acc; simp [Core.filterGo]
  | cons r rs ih =>
    intro acc
    by_cases h : p r
    · simp [Core.filterGo, h, ih]
    · simp [Core.filterGo, h, ih]

theorem perm_insertLe (le : α → α → Bool) (a : α) :
    ∀ l : List α, (Core.insertLe le a l).Perm (a :: l) := by
  intro l
  induction l with
  | nil => simp [Core.insertLe]
  | cons b l ih =>
    by_cases h : le a b
    · simp [Core.insertLe, h]
    · simp only [Core.insertLe, h, if_neg]
      exact (ih.cons b).trans (List.Perm.swap a b l)

theorem perm_sortByLe (le : α → α → Bool) :
    ∀ l : List α, (Core.sortByLe le l).Perm l := by
  intro l
  induction l with
  | nil => simp [Core.sortByLe]
  | cons a l ih =>
    have : Core.sortByLe le (a :: l) = Core.insertLe le a (Core.sortByLe le l) := rfl
    rw [this]
    exact (perm_insertLe le a _).trans (ih.cons a)

theorem filter_insertLe (le : α → α → Bool) (p : α → Bool) (a : α)
    (ha : p a = true → ∀ b, le a b = false → p b = false) :
    ∀ l : List α,
    (Core.insertLe le a l).filter p = if p a then a :: l.filter p else l.filter p := by
  intro l
  induction l with
  | nil => simp [Core.insertLe, List.filter_cons]
  | cons b l ih =>
    cases h : le a b with
    | true => simp [Core.insertLe, h, List.filter_cons]
    | false =>
      cases hpa : p a with
      | true =>
        have hpb : p b = false := ha hpa b h
        simp [Core.insertLe, h, List.filter_cons, hpb, ih, hpa]
      | false =>
        cases hpb : p b with
        | true => simp [Core.insertLe, h, List.filter_cons, hpb, ih, hpa]
        | false => simp [Core.insertLe, h, List.filter_cons, hpb, ih, hpa]

/-- Stability of the sort: for a sort key `k` reflexive for the driving
comparison, the `p`-equal-key rows keep their relative input order. -/
theorem filter_sortByLe (le : α → α → Bool) (p : α → Bool)
    (hcomp : ∀ a, p a = true → ∀ b, le a b = false → p b = false) :
    ∀ l : List α, (Core.sortByLe le l).filter p = l.filter p := by
  intro l
  induction l with
  | nil => simp [Core.sortByLe]
  | cons a l ih =>
    have hstep : Core.sortByLe le (a :: l) = Core.insertLe le a (Core.sortByLe le l) := rfl
    rw [hstep, filter_insertLe le p a (hcomp a) _]
    cases hpa : p a with
    | true => simp [hpa, List.filter_cons, ih]
    | false => simp [hpa, List.filter_cons, ih]

theorem lexLt_irrefl : ∀ t : Str, lexLt t t = false := by
  intro t
  induction t with
  | nil => rfl
  | cons c cs ih => simp [lexLt, ih]

theorem valueLe_refl (v : Value) : Core.valueLe v v = true := by
  cases v with
  | num q => simp [Core.valueLe, Core.valueLt]
  | str t => simp [Core.valueLe, Core.valueLt, lexLt_irrefl]

/-! ## Characterizing the condition parser -/

theorem splitFirst_eq_none_iff (pat s : Str) :
    splitFirst pat s = none ↔ ¬ ∃ pre post, s = pre ++ pat ++ post := by
  rw [← splitFirst_isSome_iff]
  cases splitFirst pat s <;> simp

theorem findSplit_none_iff (cond : Str) : ∀ ops : List Str,
    findSplit cond ops = none ↔ ∀ op ∈ ops, splitFirst op cond = none := by
  intro ops
  induction ops with
  | nil => simp [findSplit]
  | cons op rest ih =>
    simp only [findSplit]
    cases h : splitFirst op cond with
    | some pr =>
      constructor
      · intro hfalse
        exact absurd hfalse (by simp)
      · intro hall
        exact absurd (hall op (by simp)) (by simp [h])
    | none =>
      rw [ih]
      constructor
      · intro hall op2 hm
        rcases List.mem_cons.1 hm with rfl | hm2
        · exact h
        · exact hall op2 hm2
      · intro hall op2 hm
        exact hall op2 (List.mem_cons_of_mem op hm)

theorem findSplit_eq_some (cond : Str) : ∀ (ops : List Str) (c op v : Str),
    findSplit cond ops = some (c, op, v) →
    ∃ l1 l2, ops = l1 ++ op :: l2 ∧ (∀ op2 ∈ l1, splitFirst op2 cond = none) ∧
      ∃ pre post, splitFirst op cond = some (pre, post) ∧ c = trim pre ∧ v = trim post := by
  intro ops
  induction ops with
  | nil =>
    intro c op v h
    simp [findSplit] at h
  | cons op0 rest ih =>
    intro c op v h
    simp only [findSplit] at h
    cases hs : splitFirst op0 cond with
    | some pr =>
      obtain ⟨pre, post⟩ := pr
      rw [hs] at h
      simp only [Option.some.injEq, Prod.mk.injEq] at h
      obtain ⟨rfl, rfl, rfl⟩ := h
      exact ⟨[], rest, rfl, by simp, pre, post, hs, rfl, rfl⟩
    | none =>
      rw [hs] at h
      obtain ⟨l1, l2, hops, hnone, rest2⟩ := ih c op v h
      refine ⟨op0 :: l1, l2, by simp [hops], ?_, rest2⟩
      intro op2 hm
      rcases List.mem_cons.1 hm with rfl | hm2
      · exact hs
      · exact hnone op2 hm2

/-- C6: `parse_condition` tries the operators in the fixed priority order
`>=`, `<=`, `=`, `>`, `<`; the first operator substring occurring in the
input splits it at its first occurrence into (column, operator, operand)
with both sides stripped of whitespace, and the parse fails with
`MalformedCondition` exactly when none of the five operator substrings
occurs in the input. -/
theorem c6_parse_condition_first_operator_split (cond : Str) :
    (parse_condition cond = .error .malformedCondition ↔
      ∀ op ∈ operators, ¬ ∃ pre post, cond = pre ++ op ++ post)
    ∧ ∀ col op val, parse_condition cond = .ok (col, op, val) →
        (∃ l1 l2, operators = l1 ++ op :: l2 ∧
          ∀ op2 ∈ l1, ¬ ∃ pre post, cond = pre ++ op2 ++ post)
        ∧ ∃ pre post, cond = pre ++ op ++ post ∧ col = trim pre ∧ val = trim post ∧
            ∀ pre2 post2, cond = pre2 ++ op ++ post2 → pre.length ≤ pre2.length := by
  constructor
  · cases h : findSplit cond operators with
    | none =>
      simp only [parse_condition, h]
      constructor
      · intro _ op hop
        exact (splitFirst_eq_none_iff op cond).1 ((findSplit_none_iff cond operators).1 h op hop)
      · intro _
        trivial
    | some r =>
      simp only [parse_condition, h]
      constructor
      · intro hfalse
        exact absurd hfalse (by simp)
      · intro hall
        obtain ⟨c0, op0, v0⟩ := r
        obtain ⟨l1, l2, hops, _, pre, post, hsf, _, _⟩ :=
          findSplit_eq_some cond operators c0 op0 v0 h
        have hop0 : op0 ∈ operators := by
          rw [hops]
          simp
        exact absurd ⟨pre, post, splitFirst_eq_some op0 cond pre post hsf⟩ (hall op0 hop0)
  · intro col op val h
    simp only [parse_condition] at h
    cases hfs : findSplit cond operators with
    | none =>
      rw [hfs] at h
      exact absurd h (by simp)
    | some r =>
      rw [hfs] at h
      simp only [Except.ok.injEq] at h
      subst h
      obtain ⟨l1, l2, hops, hnone, pre, post, hsf, hcol, hval⟩ :=
        findSplit_eq_some cond operators col op val hfs
      refine ⟨⟨l1, l2, hops, ?_⟩, pre, post, splitFirst_eq_some op cond pre post hsf,
        hcol, hval, ?_⟩
      · intro op2 hm
        exact (splitFirst_eq_none_iff op2 cond).1 (hnone op2 hm)
      · intro pre2 post2 heq
        exact splitFirst_minimal op cond pre post hsf pre2 post2 heq

/-! ## Claim theorems -/

/-- C6 witness: the characterization applied to the concrete condition
`age>=25`, whose first occurring operator in priority order is `>=`. -/
theorem c6_parse_condition_first_operator_split_w :
    (∃ l1 l2, operators = l1 ++ opGe :: l2 ∧
      ∀ op2 ∈ l1, ¬ ∃ pre post, "age>=25".toList = pre ++ op2 ++ post)
    ∧ ∃ pre post, "age>=25".toList = pre ++ opGe ++ post ∧
        "age".toList = trim pre ∧ "25".toList = trim post ∧
        ∀ pre2 post2, "age>=25".toList = pre2 ++ opGe ++ post2 →
          pre.length ≤ pre2.length :=
  (c6_parse_condition_first_operator_split ("age>=25".toList)).2
    ("age".toList) opGe ("25".toList) (by decide)

/-- C1: the descending order-by on the string column values
`Bob`, `Alice`, `Eve` does NOT produce the reverse-comparator order
`[Eve, Bob, Alice]` required by the spec: the code sorts by the reversed
character sequences (`boB`, `ecilA`, `evE`), yielding `[Bob, Alice, Eve]`. -/
theorem c1_descending_string_sort_is_character_reversal :
    Core.apply_order_by [rowAlice, rowBob, rowEve] "name=desc".toList
      = .ok [rowBob, rowAlice, rowEve]
    ∧ ([rowBob, rowAlice, rowEve] : List Core.Row) ≠ [rowEve, rowBob, rowAlice] := by
  constructor
  · decide
  · decide

/-- The list comprehension aborts with `NonNumericColumn` as soon as the data
contains a row whose cell in the target column fails numeric coercion. -/
theorem collectValues_error (col : Str) : ∀ data : List Core.Row,
    (∃ r ∈ data, (Core.lookupRow col r).isSome = true ∧
      ((Core.lookupRow col r).bind toNum) = none) →
    Core.collectValues col data = .error (.nonNumericColumn col) := by
  intro data
  induction data with
  | nil =>
    rintro ⟨r, hr, _⟩
    cases hr
  | cons r rs ih =>
    rintro ⟨r0, hr0, hsome, hbind⟩
    rcases List.mem_cons.1 hr0 with rfl | hm
    · obtain ⟨cell, hc⟩ := Option.isSome_iff_exists.1 hsome
      rw [hc] at hbind
      simp only [Option.some_bind] at hbind
      simp [Core.collectValues, hc, hbind]
    · cases hl : Core.lookupRow col r with
      | none => simpa [Core.collectValues, hl] using ih ⟨r0, hm, hsome, hbind⟩
      | some cell =>
        cases ht : toNum cell with
        | none => simp [Core.collectValues, hl, ht]
        | some q => simp [Core.collectValues, hl, ht, ih ⟨r0, hm, hsome, hbind⟩]

/-- C3: aggregating an empty dataset under any recognized operation returns
the single record with a null value, and never fails. -/
theorem c3_empty_aggregation_null (cond col op : Str)
    (hsplit : Core.splitEq cond = some (col, op)) (hop : op ∈ Core.aggNames) :
    Core.apply_aggregation [] cond = .ok [⟨op, col, none⟩] := by
  simp [Core.apply_aggregation, hsplit, hop, Core.collectValues]

/-- C3 witness: the empty dataset aggregated under `salary=avg`. -/
theorem c3_empty_aggregation_null_w :
    Core.apply_aggregation [] "salary=avg".toList
      = .ok [⟨"avg".toList, "salary".toList, none⟩] :=
  c3_empty_aggregation_null ("salary=avg".toList) ("salary".toList) ("avg".toList)
    (by decide) (by decide)

/-- C7: a single non-coercible value in the target column makes the whole
aggregation fail with `NonNumericColumn`, for every recognized operation
(`count` included), with no partial result. -/
theorem c7_non_numeric_column_aborts (data : List Core.Row) (cond col op : Str)
    (hsplit : Core.splitEq cond = some (col, op)) (hop : op ∈ Core.aggNames)
    (hbad : ∃ r ∈ data, (Core.lookupRow col r).isSome = true ∧
      ((Core.lookupRow col r).bind toNum) = none) :
    Core.apply_aggregation data cond = .error (.nonNumericColumn col) := by
  simp [Core.apply_aggregation, hsplit, hop, collectValues_error col data hbad]

/-- C7 witness: `name=count` on a row whose `name` cell is the non-numeric
string `Alice`. -/
theorem c7_non_numeric_column_aborts_w :
    Core.apply_aggregation [rowAlice] "name=count".toList
      = .error (.nonNumericColumn "name".toList) :=
  c7_non_numeric_column_aborts [rowAlice] ("name=count".toList) ("name".toList)
    ("count".toList) (by decide) (by decide) (by decide)

/-- C9: filtering is idempotent — re-filtering the output of a successful filter
with the same condition returns that output unchanged. -/
theorem c9_filter_idempotent (data out : List Core.Row) (cond : Str)
    (hok : Core.apply_filter data cond = .ok out) :
    Core.apply_filter out cond = .ok out := by
  cases hp : parse_condition cond with
  | error e => simp [Core.apply_filter, hp] at hok
  | ok t =>
    obtain ⟨col, op, val⟩ := t
    simp only [Core.apply_filter, hp, Except.ok.injEq] at hok ⊢
    rw [filterGo_eq_filter] at hok ⊢
    simp only [List.nil_append] at hok ⊢
    rw [← hok, List.filter_filter]
    simp [← hok]

/-- C9 witness: the `age>25` filter applied twice to three concrete rows. -/
theorem c9_filter_idempotent_w :
    Core.apply_filter [ageRows[0], ageRows[2]] "age>25".toList
      = .ok [ageRows[0], ageRows[2]] :=
  c9_filter_idempotent ageRows [ageRows[0], ageRows[2]] ("age>25".toList) (by decide)

/-- C4: a successful filter returns the order-preserving subsequence of rows
satisfying the condition; when the operand and the cell of every row in the column
coerce to numbers, a row is kept exactly when the numeric predicate holds. -/
theorem c4_filter_stable_subsequence_numeric (data : List Core.Row)
    (cond col op val : Str) (q : ℚ) (out : List Core.Row)
    (hp : parse_condition cond = .ok (col, op, val))
    (hok : Core.apply_filter data cond = .ok out) :
    out.Sublist data ∧ out = data.filter (Core.rowKeep col op val) ∧
    (parseFloat val = some q →
      (∀ r ∈ data, ((Core.lookupRow col r).bind toNum).isSome = true) →
      out = data.filter (fun r =>
        match (Core.lookupRow col r).bind toNum with
        | some rn => Core.numCompare op rn q
        | none => false)) := by
  simp only [Core.apply_filter, hp, Except.ok.injEq] at hok
  rw [filterGo_eq_filter, List.nil_append] at hok
  subst hok
  refine ⟨List.filter_sublist _, rfl, ?_⟩
  intro hq hnum
  apply List.filter_congr
  intro r hr
  cases hl : Core.lookupRow col r with
  | none =>
    exfalso
    have := hnum r hr
    rw [hl] at this
    simp at this
  | some cell =>
    cases ht : toNum cell with
    | none =>
      exfalso
      have := hnum r hr
      rw [hl] at this
      simp [ht] at this
    | some rn =>
      simp [Core.rowKeep, hl, Core.condMet, ht, hq]

/-- C4 witness: `age>25` over all-numeric rows keeps exactly the rows with
age above `25`, in input order. -/
theorem c4_filter_stable_subsequence_numeric_w :
    ([ageRows[0], ageRows[2]] : List Core.Row).Sublist ageRows
    ∧ [ageRows[0], ageRows[2]]
        = ageRows.filter (Core.rowKeep ("age".toList) opGt ("25".toList))
    ∧ [ageRows[0], ageRows[2]] = ageRows.filter (fun r =>
        match (Core.lookupRow ("age".toList) r).bind toNum with
        | some rn => Core.numCompare opGt rn 25
        | none => false) := by
  have h := c4_filter_stable_subsequence_numeric ageRows ("age>25".toList)
    ("age".toList) opGt ("25".toList) 25 [ageRows[0], ageRows[2]]
    (by decide) (by decide)
  exact ⟨h.1, h.2.1, h.2.2 (by decide) (by decide)⟩

/-- For a key function reflexive under the driving comparison, the stable
sort keeps the relative order of the rows sharing any given key value. -/
theorem filter_sortByLe_key (k : α → Value) (v : Value) (l : List α) :
    (Core.sortByLe (fun a b => Core.valueLe (k a) (k b)) l).filter
        (fun a => decide (k a = v))
      = l.filter (fun a => decide (k a = v)) := by
  apply filter_sortByLe
  intro a hpa b hle
  have hka : k a = v := of_decide_eq_true hpa
  cases hd : decide (k b = v) with
  | false => rfl
  | true =>
    exfalso
    have hkb : k b = v := of_decide_eq_true hd
    have htrue : Core.valueLe (k a) (k b) = true := by
      rw [hka.trans hkb.symm]
      exact valueLe_refl _
    rw [htrue] at hle
    cases hle

/-- C8: sorting is stable in both directions — rows whose active sort keys
are equal appear in the output in their input relative order. -/
theorem c8_sort_stable (data : List Core.Row) (cond col order : Str)
    (out : List Core.Row) (v : Value)
    (hsplit : Core.splitEq cond = some (col, order))
    (hok : Core.apply_order_by data cond = .ok out) :
    out.filter (fun r => decide (Core.activeKey order col data r = v))
      = data.filter (fun r => decide (Core.activeKey order col data r = v)) := by
  simp only [Core.apply_order_by, hsplit] at hok
  by_cases hord : order ∈ Core.sortOrderNames
  · rw [if_pos hord] at hok
    cases hmix : Core.mixedKeys (data.map (Core.keyPrimary order col)) with
    | true =>
      rw [hmix] at hok
      simp only [if_true, Except.ok.injEq] at hok
      subst hok
      simp only [Core.activeKey, hmix, if_true]
      exact filter_sortByLe_key (Core.keyFallback order col) v data
    | false =>
      rw [hmix] at hok
      simp only [Bool.false_eq_true, if_false, Except.ok.injEq] at hok
      subst hok
      simp only [Core.activeKey, hmix, Bool.false_eq_true, if_false]
      exact filter_sortByLe_key (Core.keyPrimary order col) v data
  · rw [if_neg hord] at hok
    exact absurd hok (by simp)

/-- C8 witness: two rows sharing the sort key `1` and distinguished by a
second column keep their input order under a descending sort. -/
theorem c8_sort_stable_w :
    (Core.sortByLe (fun a b => Core.valueLe (Core.keyPrimary ("desc".toList) ("k".toList) a)
        (Core.keyPrimary ("desc".toList) ("k".toList) b)) dupKeyRows).filter
        (fun r => decide (Core.activeKey ("desc".toList) ("k".toList) dupKeyRows r
          = Value.num (-1)))
      = dupKeyRows.filter (fun r => decide (Core.activeKey ("desc".toList) ("k".toList)
          dupKeyRows r = Value.num (-1))) :=
  c8_sort_stable dupKeyRows ("k=desc".toList) ("k".toList) ("desc".toList)
    (Core.sortByLe (fun a b => Core.valueLe (Core.keyPrimary ("desc".toList) ("k".toList) a)
      (Core.keyPrimary ("desc".toList) ("k".toList) b)) dupKeyRows)
    (Value.num (-1)) (by decide) (by decide)

/-- C10: with a well-formed order spec, the order-by of `core.py` never fails on a
row lacking the sort column — the primary key of such a row defaults to the number
`0`, its fallback key to the empty string, and the output is a permutation
of the input, so every row survives. -/
theorem c10_order_by_total_missing_column (data : List Core.Row)
    (cond col order : Str) (r : Core.Row)
    (hsplit : Core.splitEq cond = some (col, order))
    (hord : order ∈ Core.sortOrderNames)
    (hmiss : Core.lookupRow col r = none) :
    (∃ out, Core.apply_order_by data cond = .ok out ∧ out.Perm data)
    ∧ Core.keyPrimary order col r = Value.num 0
    ∧ Core.keyFallback order col r = Value.str [] := by
  have hcases : order = Core.ordAsc ∨ order = Core.ordDesc := by
    simpa [Core.sortOrderNames] using hord
  refine ⟨?_, ?_, ?_⟩
  · simp only [Core.apply_order_by, hsplit, if_pos hord]
    cases hmix : Core.mixedKeys (data.map (Core.keyPrimary order col)) with
    | true => exact ⟨_, by rw [if_pos rfl], perm_sortByLe _ data⟩
    | false => exact ⟨_, by rw [if_neg (by simp)], perm_sortByLe _ data⟩
  · rcases hcases with rfl | rfl
    · have hne : ¬ (Core.ordAsc = Core.ordDesc) := by decide
      simp [Core.keyPrimary, hmiss, Core.sortTransform, hne]
    · simp [Core.keyPrimary, hmiss, Core.sortTransform]
  · rcases hcases with rfl | rfl
    · have hne : ¬ (Core.ordAsc = Core.ordDesc) := by decide
      simp [Core.keyFallback, hmiss, Core.sortTransform, hne]
    · simp [Core.keyFallback, hmiss, Core.sortTransform]

/-- C10 witness: sorting a dataset by the absent column `k` ascending. -/
theorem c10_order_by_total_missing_column_w :
    (∃ out, Core.apply_order_by [rowAlice] ("k=asc".toList) = .ok out
      ∧ out.Perm [rowAlice])
    ∧ Core.keyPrimary ("asc".toList) ("k".toList) rowAlice = Value.num 0
    ∧ Core.keyFallback ("asc".toList) ("k".toList) rowAlice = Value.str [] :=
  c10_order_by_total_missing_column [rowAlice] ("k=asc".toList) ("k".toList)
    ("asc".toList) rowAlice (by decide) (by decide) (by decide)

/-- C2 counterexample: the median of the four salaries
`[4000, 5000, 5500, 6000]` computed by the code is `5500` (the element at
index `4 / 2 = 2` of the ascending sort, the upper middle), not the `5000`
the claim states. -/
theorem c2_median_even_upper_middle_counterexample :
    Core.apply_aggregation salaryRows ("salary=median".toList)
      = .ok [⟨"median".toList, "salary".toList, some 5500⟩]
    ∧ (5500 : ℚ) ≠ 5000 := by
  constructor
  · decide
  · decide

/-- C2 (amended): on a nonempty numeric column the median is the element at
index `n / 2` of the ascending sort — the middle element for odd `n`, the
UPPER middle for even `n`. -/
theorem c2_median_sorted_index (data : List Core.Row) (cond col : Str)
    (values : List ℚ)
    (hsplit : Core.splitEq cond = some (col, Core.opMedian))
    (hvals : Core.collectValues col data = .ok values)
    (hne : values ≠ []) :
    ∃ l : List ℚ, l.Perm values ∧ l.Sorted (fun a b => a ≤ b) ∧
      values.length / 2 < values.length ∧
      Core.apply_aggregation data cond
        = .ok [⟨Core.opMedian, col, l[values.length / 2]?⟩] := by
  have hmem : Core.opMedian ∈ Core.aggNames := by decide
  have hlenpos : 0 < values.length := List.length_pos.2 hne
  have hidx : values.length / 2 < values.length := Nat.div_lt_self hlenpos (by decide)
  refine ⟨List.insertionSort (fun a b => a ≤ b) values,
    List.perm_insertionSort _ _, List.sorted_insertionSort _ _, hidx, ?_⟩
  have hlen : (List.insertionSort (fun a b => a ≤ b) values).length = values.length :=
    (List.perm_insertionSort _ _).length_eq
  have d1 : ¬ (Core.opMedian = Core.opAvg) := by decide
  have d2 : ¬ (Core.opMedian = Core.opMin) := by decide
  have d3 : ¬ (Core.opMedian = Core.opMax) := by decide
  have hagg : Core.aggApply Core.opMedian values
      = ((List.insertionSort (fun a b => a ≤ b) values)[values.length / 2]?).getD 0 := by
    simp [Core.aggApply, d1, d2, d3, hne]
  have hx : (List.insertionSort (fun a b => a ≤ b) values)[values.length / 2]?
      = some ((List.insertionSort (fun a b => a ≤ b) values).get
          ⟨values.length / 2, by rw [hlen]; exact hidx⟩) := by
    rw [List.getElem?_eq_getElem (by rw [hlen]; exact hidx)]
    simp [List.get_eq_getElem]
  simp only [Core.apply_aggregation, hsplit, if_pos hmem, hvals, if_neg hne, hagg, hx]
  simp

/-- C2 witness: the amended median statement at the concrete salary column
`[5000, 4000, 6000, 5500]`. -/
theorem c2_median_sorted_index_w :
    ∃ l : List ℚ, l.Perm [5000, 4000, 6000, 5500]
      ∧ l.Sorted (fun a b => a ≤ b)
      ∧ ([(5000 : ℚ), 4000, 6000, 5500] : List ℚ).length / 2
          < ([(5000 : ℚ), 4000, 6000, 5500] : List ℚ).length
      ∧ Core.apply_aggregation salaryRows ("salary=median".toList)
          = .ok [⟨Core.opMedian, "salary".toList,
              l[([(5000 : ℚ), 4000, 6000, 5500] : List ℚ).length / 2]?⟩] :=
  c2_median_sorted_index salaryRows ("salary=median".toList) ("salary".toList)
    [5000, 4000, 6000, 5500] (by decide) (by decide) (by decide)

/-- C5 counterexample: the condition `a>=abc` against a row whose `a` cell is the string
`abc` neither fails with `UnsupportedOperator` nor degrades to the composed
`= or >` semantics (which would keep the row, since the equality comparison
succeeds): `core.py` silently excludes the row. -/
theorem c5_string_ge_silent_exclusion_counterexample :
    Core.apply_filter [rowAbc] ("a>=abc".toList) = .ok []
    ∧ (Core.strCompare opEq ("abc".toList) ("abc".toList)
        || Core.strCompare opGt ("abc".toList) ("abc".toList)) = true := by
  constructor
  · decide
  · decide

/-- In `main.py`, as soon as the comparison of some row falls back to string
comparison under `>=` or `<=`, the whole filter aborts with
`UnsupportedOperator` (given that every row has the column, so no `KeyError`
fires first). -/
theorem mainpy_filterGo_unsupported (col op val : Str)
    (hop : op = opGe ∨ op = opLe) :
    ∀ (dataM : List MainPy.RowS) (acc : List MainPy.RowS),
    (∀ rm ∈ dataM, (MainPy.lookupRowS col rm).isSome = true) →
    (∃ rm ∈ dataM, ((MainPy.lookupRowS col rm).bind parseFloat = none
      ∨ parseFloat val = none)) →
    MainPy.filterGo col op val acc dataM = .error (.unsupportedOperator op) := by
  have hne1 : ¬ (op = opEq) := by
    rcases hop with rfl | rfl
    · decide
    · decide
  have hne2 : ¬ (op = opGt) := by
    rcases hop with rfl | rfl
    · decide
    · decide
  have hne3 : ¬ (op = opLt) := by
    rcases hop with rfl | rfl
    · decide
    · decide
  intro dataM
  induction dataM with
  | nil =>
    rintro acc _ ⟨rm, hrm, _⟩
    cases hrm
  | cons rm rs ih =>
    rintro acc hcols ⟨rm0, hrm0, hfb⟩
    obtain ⟨rv, hrv⟩ := Option.isSome_iff_exists.1 (hcols rm (by simp))
    cases hprv : parseFloat rv with
    | none =>
      simp [MainPy.filterGo, hrv, MainPy.condMet, hprv, hne1, hne2, hne3]
    | some qv =>
      cases hpv : parseFloat val with
      | none =>
        simp [MainPy.filterGo, hrv, MainPy.condMet, hprv, hpv, hne1, hne2, hne3]
      | some q =>
        have hstep : MainPy.filterGo col op val acc (rm :: rs)
            = MainPy.filterGo col op val
              (if Core.numCompare op qv q then acc ++ [rm] else acc) rs := by
          simp [MainPy.filterGo, hrv, MainPy.condMet, hprv, hpv]
        rw [hstep]
        apply ih
        · intro rm2 hm2
          exact hcols rm2 (List.mem_cons_of_mem rm hm2)
        · rcases List.mem_cons.1 hrm0 with rfl | hm
          · exfalso
            rcases hfb with hfb1 | hfb2
            · rw [hrv] at hfb1
              simp [hprv] at hfb1
            · rw [hpv] at hfb2
              cases hfb2
          · exact ⟨rm0, hm, hfb⟩

/-- C5 (amended): when a `>=` or `<=` comparison falls back to string
comparison, `core.py` silently treats the row as not matching (it is
excluded, with no error), while `main.py` aborts the whole filter with
`UnsupportedOperator`; neither variant composes the `= or >` semantics. -/
theorem c5_string_ge_le_behavior (cond col op val : Str) (cell : Value)
    (r : Core.Row) (dataC : List Core.Row) (dataM : List MainPy.RowS)
    (hp : parse_condition cond = .ok (col, op, val))
    (hop : op = opGe ∨ op = opLe)
    (hfb : toNum cell = none ∨ parseFloat val = none)
    (hcell : Core.lookupRow col r = some cell)
    (hcols : ∀ rm ∈ dataM, (MainPy.lookupRowS col rm).isSome = true)
    (hex : ∃ rm ∈ dataM, ((MainPy.lookupRowS col rm).bind parseFloat = none
      ∨ parseFloat val = none)) :
    Core.condMet op cell val = false
    ∧ Core.rowKeep col op val r = false
    ∧ Core.apply_filter dataC cond = .ok (dataC.filter (Core.rowKeep col op val))
    ∧ r ∉ dataC.filter (Core.rowKeep col op val)
    ∧ MainPy.apply_filter dataM cond = .error (.unsupportedOperator op) := by
  have hne1 : ¬ (op = opEq) := by
    rcases hop with rfl | rfl
    · decide
    · decide
  have hne2 : ¬ (op = opGt) := by
    rcases hop with rfl | rfl
    · decide
    · decide
  have hne3 : ¬ (op = opLt) := by
    rcases hop with rfl | rfl
    · decide
    · decide
  have h1 : Core.condMet op cell val = false := by
    cases htn : toNum cell with
    | none => simp [Core.condMet, htn, Core.strCompare, hne1, hne2, hne3]
    | some rn =>
      cases hpv : parseFloat val with
      | none => simp [Core.condMet, htn, hpv, Core.strCompare, hne1, hne2, hne3]
      | some q =>
        exfalso
        rcases hfb with hfb1 | hfb2
        · rw [htn] at hfb1
          cases hfb1
        · rw [hpv] at hfb2
          cases hfb2
  have h2 : Core.rowKeep col op val r = false := by
    simp [Core.rowKeep, hcell, h1]
  refine ⟨h1, h2, ?_, ?_, ?_⟩
  · simp only [Core.apply_filter, hp]
    rw [filterGo_eq_filter, List.nil_append]
  · intro hmem
    have := (List.mem_filter.1 hmem).2
    rw [h2] at this
    cases this
  · simp only [MainPy.apply_filter, hp]
    exact mainpy_filterGo_unsupported col op val hop dataM [] hcols hex

/-- C5 witness: the amended behavior at the concrete condition `a>=abc`
and the row whose `a` cell is the string `abc`. -/
theorem c5_string_ge_le_behavior_w :
    Core.condMet opGe (Value.str ("abc".toList)) ("abc".toList) = false
    ∧ Core.rowKeep ("a".toList) opGe ("abc".toList) rowAbc = false
    ∧ Core.apply_filter [rowAbc] ("a>=abc".toList)
        = .ok ([rowAbc].filter (Core.rowKeep ("a".toList) opGe ("abc".toList)))
    ∧ rowAbc ∉ [rowAbc].filter (Core.rowKeep ("a".toList) opGe ("abc".toList))
    ∧ MainPy.apply_filter [rowAbcS] ("a>=abc".toList)
        = .error (.unsupportedOperator opGe) :=
  c5_string_ge_le_behavior ("a>=abc".toList) ("a".toList) opGe ("abc".toList)
    (Value.str ("abc".toList)) rowAbc [rowAbc] [rowAbcS]
    (by decide) (by decide) (by decide) (by decide) (by decide) (by decide)
